import Mathlib

/-!
Verification development for the CRAF'd crisis-data funding-compass
pipeline.  The repository's core consists of three parts, each embedded
below directly from the Python source:

* the tokenizers `split_respecting_parentheses` — one quote-aware,
  depth-clamped version in `scripts/_utils.py`, and a quote-unaware,
  unclamped local copy in `scripts/nesting.py`;
* the nested-join engine — `scripts/02_build_nested_data.py`
  (`build_agency_indices`, `build_project_index`, `match_agencies`,
  `match_projects`, `extract_donor_countries`, `nest_project_agencies`,
  `main`) and the older sibling `scripts/nesting.py` (agency `by_owner`
  and `by_name` indices, token matching with owner fallback);
* the filter-visibility engine of `detailed_filter_analysis.py`
  (`org_has_selected_agency`, `project_matches_agency_filter`, the
  visible-project / should-show computation with the country fixed to
  "Germany" as in that script).

Python values stored in record fields are modelled by `PyVal` (a string
or a list of items); Python dictionaries by association lists; Python
`str.strip` by `stripC` / `pyStripS`; the truthiness used by the
`x or y` field-alias chains by `truthy` / `pyOrO`.
-/

set_option maxHeartbeats 1000000

namespace FundingCompass

/-- The single-quote character, written via its code point. -/
def squote : Char := Char.ofNat 39

/-- The double-quote character, written via its code point. -/
def dquote : Char := Char.ofNat 34

/-- A non-string item of a Python list value.  The pipeline only ever
asks `isinstance(item, str)` of list items, so all non-string items
behave alike and are collapsed into one constructor. -/
inductive PyAtom where
  | astr (s : String)
  | aother
deriving DecidableEq, Repr

/-- A Python value held in an Airtable record field: a string, or a list
of items. -/
inductive PyVal where
  | vstr (s : String)
  | vlist (l : List PyAtom)
deriving DecidableEq, Repr

/-- Python truthiness for the values that occur in record fields: a
string is truthy iff non-empty, a list iff non-empty. -/
def truthy : PyVal → Bool
  | .vstr s => s ≠ ""
  | .vlist l => l ≠ []

/-- Python `x or y` over two optional field values: the first operand if
it is present and truthy, otherwise the second. -/
def pyOrO (a b : Option PyVal) : Option PyVal :=
  match a with
  | some v => if truthy v then some v else b
  | none => b

/-- Characters removed by Python `str.strip()`. -/
def pyWS (c : Char) : Bool :=
  c = ' ' ∨ c = '\t' ∨ c = '\n' ∨ c = '\r' ∨ c = '\x0b' ∨ c = '\x0c'

/-- Python `str.strip()` over a character list: drop whitespace from
both ends. -/
def stripC (l : List Char) : List Char :=
  ((l.dropWhile pyWS).reverse.dropWhile pyWS).reverse

/-- Python `str.strip()` over a `String`. -/
def pyStripS (s : String) : String :=
  String.mk (stripC s.data)

/-- ASCII lowercasing of one character (model of Python `str.lower()`
on the ASCII names this pipeline handles). -/
def lowerChar (c : Char) : Char :=
  if 65 ≤ c.toNat ∧ c.toNat ≤ 90 then Char.ofNat (c.toNat + 32) else c

/-- Python `str.lower()`. -/
def lowerS (s : String) : String :=
  String.mk (s.data.map lowerChar)

/-- Python `s.split(sep)` for a one-character separator: split at every
occurrence, keeping empty pieces. -/
def splitCharList (sep : Char) (l : List Char) : List (List Char) :=
  l.foldr (fun c acc =>
    if c = sep then [] :: acc else (c :: acc.headI) :: acc.tail) [[]]

/-- Python `s.split(",")`. -/
def pySplitComma (s : String) : List String :=
  (splitCharList ',' s.data).map String.mk

/-- Python `repr` of a list item, used only when the nesting script
stringifies a non-string owner value with `str(...)`. -/
def pyAtomRepr : PyAtom → String
  | .astr s => "'" ++ s ++ "'"
  | .aother => "None"

/-- Python `str(...)` of a field value (a plain string stays itself; a
list is rendered like Python's list repr). -/
def pyStr : PyVal → String
  | .vstr s => s
  | .vlist l => "[" ++ String.intercalate ", " (l.map pyAtomRepr) ++ "]"

/-- An Airtable record: an optional `id` and a `fields` dictionary,
modelled as an association list with unique keys. -/
structure AirRec where
  id : Option String
  fields : List (String × PyVal)
deriving DecidableEq, Repr

/-- Python `fields.get(k)`: first value stored under key `k`. -/
def fget : List (String × PyVal) → String → Option PyVal
  | [], _ => none
  | (k2, v) :: rest, k => if k2 = k then some v else fget rest k

/-! ## Tokenizer of `scripts/_utils.py` (`split_respecting_parentheses`)

Quote-aware and depth-clamped.  The scan state carries the finished
tokens, the current token, the parenthesis depth (an integer, as in
Python), and the quote state (`in_quotes` plus the opening quote
character, with Python's sentinel `quote_char = ""` modelled as
`none`). -/

structure ScanSt where
  toks : List (List Char)
  cur : List Char
  depth : Int
  inQ : Bool
  qc : Option Char
deriving DecidableEq, Repr

/-- Append the stripped current token to the token list, if non-empty
(`if current.strip(): tokens.append(current.strip())`). -/
def flushTok (toks : List (List Char)) (cur : List Char) : List (List Char) :=
  if stripC cur ≠ [] then toks ++ [stripC cur] else toks

/-- One character of the `_utils.py` scan loop, branch for branch. -/
def stepU (st : ScanSt) (c : Char) : ScanSt :=
  if (c = dquote ∨ c = squote) ∧ st.inQ = false then
    { st with inQ := true, qc := some c, cur := st.cur ++ [c] }
  else if st.qc = some c ∧ st.inQ = true then
    { st with inQ := false, qc := none, cur := st.cur ++ [c] }
  else if c = '(' ∧ st.inQ = false then
    { st with depth := st.depth + 1, cur := st.cur ++ [c] }
  else if c = ')' ∧ st.inQ = false then
    { st with depth := max 0 (st.depth - 1), cur := st.cur ++ [c] }
  else if (c = ',' ∨ c = ';') ∧ st.inQ = false ∧ st.depth = 0 then
    { st with toks := flushTok st.toks st.cur, cur := [] }
  else
    { st with cur := st.cur ++ [c] }

/-- Initial scan state. -/
def initU : ScanSt := ⟨[], [], 0, false, none⟩

/-- The scan state after consuming a whole string. -/
def scanU (s : String) : ScanSt :=
  s.data.foldl stepU initU

/-- The token lists after the final flush. -/
def finishToks (st : ScanSt) : List (List Char) :=
  flushTok st.toks st.cur

/-- Does the token start with the character `c`? -/
def tokStarts (t : List Char) (c : Char) : Bool := t.head? = some c

/-- Does the token end with the character `c`? -/
def tokEnds (t : List Char) (c : Char) : Bool := t.getLast? = some c

/-- The quote-cleaning pass applied to each finished token:
`token = token.strip()`, then if the token is wrapped in a matching pair
of quotes, `token = token[1:-1].strip()`. -/
def cleanTok (t0 : List Char) : List Char :=
  let t := stripC t0
  if (tokStarts t dquote ∧ tokEnds t dquote) ∨ (tokStarts t squote ∧ tokEnds t squote) then
    stripC ((t.drop 1).dropLast)
  else t

/-- `split_respecting_parentheses` from `scripts/_utils.py`: split on
commas and semicolons at parenthesis depth 0 outside quoted spans, strip
each token, drop empties at flush time, then strip wrapping quotes.
An empty input yields no tokens through the same scan. -/
def split_respecting_parentheses (text : String) : List String :=
  ((finishToks (scanU text)).map cleanTok).map String.mk

/-! ## Tokenizer local to `scripts/nesting.py`

No quote handling, no depth clamping, no quote-cleaning pass. -/

structure ScanStN where
  toks : List (List Char)
  cur : List Char
  depth : Int
deriving DecidableEq, Repr

/-- One character of the `nesting.py` scan loop. -/
def stepN (st : ScanStN) (c : Char) : ScanStN :=
  if c = '(' then
    { st with depth := st.depth + 1, cur := st.cur ++ [c] }
  else if c = ')' then
    { st with depth := st.depth - 1, cur := st.cur ++ [c] }
  else if (c = ',' ∨ c = ';') ∧ st.depth = 0 then
    { st with toks := flushTok st.toks st.cur, cur := [] }
  else
    { st with cur := st.cur ++ [c] }

/-- `split_respecting_parentheses` as redefined inside
`scripts/nesting.py` (lines 30-56). -/
def nesting_split_respecting_parentheses (text : String) : List String :=
  let st := text.data.foldl stepN ⟨[], [], 0⟩
  (flushTok st.toks st.cur).map String.mk

/-! ## Dictionary model

Python dicts are modelled as association lists in insertion order.
`insertAppend` models `d.setdefault(k, []).append(v)`, `insertPut`
models `d[k] = v`, `bucketD` models `d.get(k, [])` composed with the
`if k in d` membership pattern, and `lookupId` models `d.get(k)`. -/

def insertAppend {α : Type} (m : List (String × List α)) (k : String) (v : α) :
    List (String × List α) :=
  match m with
  | [] => [(k, [v])]
  | (k2, vs) :: rest =>
    if k2 = k then (k2, vs ++ [v]) :: rest else (k2, vs) :: insertAppend rest k v

def insertPut {α : Type} (m : List (String × α)) (k : String) (v : α) :
    List (String × α) :=
  match m with
  | [] => [(k, v)]
  | (k2, w) :: rest =>
    if k2 = k then (k2, v) :: rest else (k2, w) :: insertPut rest k v

def bucketD {α : Type} : List (String × List α) → String → List α
  | [], _ => []
  | (k2, vs) :: rest, k => if k2 = k then vs else bucketD rest k

def lookupId {α : Type} : List (String × α) → String → Option α
  | [], _ => none
  | (k2, v) :: rest, k => if k2 = k then some v else lookupId rest k

/-! ## `scripts/02_build_nested_data.py` -/

/-- The ordered name-field candidates of `build_agency_indices`. -/
def nameFields02 : List String :=
  ["Name", "Agency Name", "Agency/Department Name",
   "Org Full Name", "Org Short Name", "Title"]

/-- The `by_name` key of an agency in `build_agency_indices`: the first
name field holding a non-empty string, normalized by strip + lowercase.
If no candidate matches, the agency is not indexed by name at all. -/
def nameKey02 (fields : List (String × PyVal)) : Option String :=
  nameFields02.findSome? (fun f =>
    match fget fields f with
    | some (.vstr s) => if pyStripS s = "" then none else some (lowerS (pyStripS s))
    | _ => none)

/-- `build_agency_indices`: pair of (`agencies_by_id`, `agencies_by_name`). -/
def build_agency_indices (agencies : List AirRec) :
    List (String × AirRec) × List (String × List AirRec) :=
  agencies.foldl (fun acc a =>
    let byId := match a.id with
      | some i => if i ≠ "" then insertPut acc.1 i a else acc.1
      | none => acc.1
    let byName := match nameKey02 a.fields with
      | some k => insertAppend acc.2 k a
      | none => acc.2
    (byId, byName)) ([], [])

/-- Model of the stdlib call `ast.literal_eval` as used on a bracketed
provider string: parses `[ 'a', "b", ... ]` into a list of items.
String literals (without escape sequences) become `astr`; bare atoms of
digits, signs, dots or the literals True/False/None become `aother`;
anything else fails, which the caller turns into the plain-split
fallback, exactly like the `except` branch. -/
def parseAtomsAux : Nat → List Char → List PyAtom → Option (List PyAtom)
  | 0, _, _ => none
  | n + 1, cs, acc =>
    match cs.dropWhile pyWS with
    | [] => some acc
    | c :: rest =>
      if c = squote ∨ c = dquote then
        let body := rest.takeWhile (fun d => d ≠ c)
        let rest2 := rest.dropWhile (fun d => d ≠ c)
        match rest2 with
        | [] => none
        | _ :: after =>
          let after2 := after.dropWhile pyWS
          match after2 with
          | [] => some (acc ++ [.astr (String.mk body)])
          | d :: more =>
            if d = ',' then
              parseAtomsAux n more (acc ++ [.astr (String.mk body)])
            else none
      else
        let body := (c :: rest).takeWhile (fun d => ¬ (d = ',' ∨ pyWS d))
        let rest2 := (c :: rest).dropWhile (fun d => ¬ (d = ',' ∨ pyWS d))
        if (String.mk body).toList.all
            (fun d => d.isDigit ∨ d = '.' ∨ d = '-' ∨ d = '+' ∨ d = 'e' ∨ d = 'E')
            ∨ String.mk body = "True" ∨ String.mk body = "False"
            ∨ String.mk body = "None" then
          if body = [] then none
          else
            match rest2.dropWhile pyWS with
            | [] => some (acc ++ [.aother])
            | d :: more =>
              if d = ',' then parseAtomsAux n more (acc ++ [.aother])
              else none
        else none

/-- Model of `ast.literal_eval` on a string already known to start with
`[` and end with `]` (see `parseAtomsAux`). -/
def parseListLit (s : String) : Option (List PyAtom) :=
  match stripC s.data with
  | c :: rest =>
    if c = '[' then
      match rest.getLast? with
      | some d =>
        if d = ']' then parseAtomsAux (rest.length + 1) rest.dropLast []
        else none
      | none => none
    else none
  | [] => none

/-- `build_project_index`: index projects under each provider key, the
provider field being resolved as
`fields.get("Provider Orgs Full Name") or fields.get("Provider Org") or
fields.get("Organization")`, with the three accepted shapes
(serialized list / plain string / real list). -/
def build_project_index (projects : List AirRec) : List (String × List AirRec) :=
  projects.foldl (fun idx p =>
    let provs := pyOrO (fget p.fields "Provider Orgs Full Name")
      (pyOrO (fget p.fields "Provider Org") (fget p.fields "Organization"))
    match provs with
    | none => idx
    | some v =>
      if truthy v = false then idx
      else
        match v with
        | .vstr s =>
          if s.data.head? = some '[' ∧ s.data.getLast? = some ']' then
            match parseListLit s with
            | some atoms =>
              atoms.foldl (fun m it =>
                match it with
                | .astr ps => insertAppend m (pyStripS ps) p
                | .aother => m) idx
            | none =>
              (split_respecting_parentheses s).foldl
                (fun m part => insertAppend m (pyStripS part) p) idx
          else
            (split_respecting_parentheses s).foldl
              (fun m part => insertAppend m (pyStripS part) p) idx
        | .vlist l =>
          l.foldl (fun m it =>
            match it with
            | .astr ps => insertAppend m (pyStripS ps) p
            | .aother => m) idx) []

/-- `match_agencies` of `02_build_nested_data.py`: resolve the donor
field through the `or`-chain of aliases, tokenize (string or
list-of-strings shape), then collect every `by_name` bucket hit. -/
def match_agencies (orgFields : List (String × PyVal))
    (byName : List (String × List AirRec)) : List AirRec :=
  let donorField := pyOrO (fget orgFields "Org Donor Agencies")
    (pyOrO (fget orgFields "Org Donor Agencies (Linked)")
      (fget orgFields "Org Donor Agencies (from Agency)"))
  match donorField with
  | none => []
  | some v =>
    if truthy v = false then []
    else
      let donorTokens : List String :=
        match v with
        | .vstr s => if pyStripS s ≠ "" then split_respecting_parentheses s else []
        | .vlist l =>
          l.flatMap (fun it =>
            match it with
            | .astr s => if pyStripS s ≠ "" then split_respecting_parentheses s else []
            | .aother => [])
      donorTokens.flatMap (fun t => bucketD byName (lowerS (pyStripS t)))

/-- First bucket whose key matches the lowered organization name
case-insensitively (the `for key ... if key.lower() == ...: break`
scan of `match_projects`). -/
def ciFirstBucket {α : Type} : List (String × List α) → String → List α
  | [], _ => []
  | (k2, vs) :: rest, low => if lowerS k2 = low then vs else ciFirstBucket rest low

/-- The concatenation the `matched` accumulator of `match_projects`
holds before deduplication: exact-name bucket, then exact-id bucket,
then the first case-insensitive name bucket, each guarded by the
truthiness of the respective key. -/
def match_projects_candidates (orgName orgId : String)
    (idx : List (String × List AirRec)) : List AirRec :=
  (if orgName ≠ "" then bucketD idx orgName else [])
    ++ (if orgId ≠ "" then bucketD idx orgId else [])
    ++ (if orgName ≠ "" then ciFirstBucket idx (lowerS orgName) else [])

/-- The dedup loop of `match_projects`: keep the first record seen for
each project id (`if project_id not in seen_ids`). -/
def dedupGo (seen : List (Option String)) : List AirRec → List AirRec
  | [] => []
  | p :: rest =>
    if p.id ∈ seen then dedupGo seen rest
    else p :: dedupGo (p.id :: seen) rest

/-- `match_projects` of `02_build_nested_data.py`. -/
def match_projects (orgName orgId : String)
    (idx : List (String × List AirRec)) : List AirRec :=
  dedupGo [] (match_projects_candidates orgName orgId idx)

/-- Country values contributed by one agency in
`extract_donor_countries` (list shape keeps string items with non-empty
strip; string shape kept when its strip is non-empty). -/
def countryVals (a : AirRec) : List String :=
  match fget a.fields "Country Name" with
  | some (.vlist l) =>
    l.filterMap (fun it =>
      match it with
      | .astr s => if pyStripS s ≠ "" then some (pyStripS s) else none
      | .aother => none)
  | some (.vstr s) => if pyStripS s ≠ "" then [pyStripS s] else []
  | none => []

/-- Keep the first occurrence of each string (set-like accumulation). -/
def dedupStr (l : List String) : List String :=
  l.foldl (fun acc c => if c ∈ acc then acc else acc ++ [c]) []

/-- Insert into a sorted list (ascending). -/
def insertSorted (x : String) : List String → List String
  | [] => [x]
  | y :: ys => if x ≤ y then x :: y :: ys else y :: insertSorted x ys

/-- Ascending insertion sort, modelling Python `sorted`. -/
def sortStr (l : List String) : List String :=
  l.foldr insertSorted []

/-- `extract_donor_countries` composed with the `sorted(list(...))` of
`main`: the deduplicated, lexicographically sorted country names. -/
def extract_donor_countries (agencies : List AirRec) : List String :=
  sortStr (dedupStr (agencies.flatMap countryVals))

/-- A project record with its nested per-project donor agencies, as
produced by `nest_project_agencies` (`project.copy()` plus an
`agencies` entry). -/
structure NProj where
  id : Option String
  fields : List (String × PyVal)
  agencies : List AirRec
deriving DecidableEq, Repr

/-- The per-project donor-agency resolution of `nest_project_agencies`:
the "Project Donor Agencies" field (default `[]`), as a list of id
strings or a single comma-separated id string, each id looked up in
`agencies_by_id` and silently skipped when unknown. -/
def projDonorAgencies (p : AirRec) (byId : List (String × AirRec)) : List AirRec :=
  match (fget p.fields "Project Donor Agencies").getD (.vlist []) with
  | .vlist l =>
    l.filterMap (fun it =>
      match it with
      | .astr aid => lookupId byId aid
      | .aother => none)
  | .vstr s => (pySplitComma s).filterMap (fun part => lookupId byId (pyStripS part))

/-- `nest_project_agencies`. -/
def nest_project_agencies (projects : List AirRec)
    (byId : List (String × AirRec)) : List NProj :=
  projects.map (fun p => { id := p.id, fields := p.fields,
                           agencies := projDonorAgencies p byId })

/-- One output record of the nested build (`entry` in `main`). -/
structure NOrg where
  id : Option String
  name : Option PyVal
  fields : List (String × PyVal)
  agencies : List AirRec
  projects : List NProj
  donorCountries : List String
deriving DecidableEq, Repr

/-- The organization name resolution of `main`:
`fields.get("Org Full Name") or ... or org.get("id")`. -/
def orgNameRaw02 (o : AirRec) : Option PyVal :=
  pyOrO (fget o.fields "Org Full Name")
    (pyOrO (fget o.fields "Org Short Name")
      (pyOrO (fget o.fields "Organization") (o.id.map PyVal.vstr)))

/-- Python `str(x or "")` over an optional field value. -/
def pyStrOrEmpty (v : Option PyVal) : String :=
  match v with
  | some w => if truthy w then pyStr w else ""
  | none => ""

/-- Python `str(x or "")` over an optional id string. -/
def idStrOrEmpty (i : Option String) : String :=
  match i with
  | some s => if s ≠ "" then s else ""
  | none => ""

/-- The `main` loop of `02_build_nested_data.py`: indices, then one
nested entry per organization. -/
def build_nested (orgs agencies projects : List AirRec) : List NOrg :=
  let idx := build_agency_indices agencies
  let pidx := build_project_index projects
  orgs.map (fun o =>
    let matchedAgencies := match_agencies o.fields idx.2
    let matchedProjects := match_projects (pyStrOrEmpty (orgNameRaw02 o))
      (idStrOrEmpty o.id) pidx
    { id := o.id,
      name := orgNameRaw02 o,
      fields := o.fields,
      agencies := matchedAgencies,
      projects := nest_project_agencies matchedProjects idx.1,
      donorCountries := extract_donor_countries matchedAgencies })

/-! ## `scripts/nesting.py` (agency indices and attachment) -/

/-- The name-key candidates of the nesting script's `by_name` index. -/
def nameKeysN : List String :=
  ["Name", "Agency Name", "Org Full Name", "Org Short Name",
   "Provider Orgs Full Name", "Title"]

/-- Python `str(record.get('id'))`: the id string, or `"None"`. -/
def idStrN (a : AirRec) : String :=
  match a.id with
  | some i => i
  | none => "None"

/-- The `by_name` key of an agency in `nesting.py` (lines 193-203):
first non-empty string among the name candidates (stripped), falling
back to the record id; the chosen value is stringified, stripped and
lowercased.  Every agency gets a key. -/
def nesting_agency_name_key (a : AirRec) : String :=
  match nameKeysN.findSome? (fun k =>
      match fget a.fields k with
      | some (.vstr s) => if pyStripS s ≠ "" then some (pyStripS s) else none
      | _ => none) with
  | some found => lowerS (pyStripS found)
  | none => lowerS (pyStripS (idStrN a))

/-- The `by_owner` key of an agency in `nesting.py` (lines 179-191):
first non-empty string among the owner candidates, else the first
truthy of two further fields (stringified via `str`), else
`str(record id)`. -/
def nesting_owner_key (a : AirRec) : String :=
  match (["Organization", "Org Full Name", "Provided By",
          "Provider Orgs Full Name"] : List String).findSome? (fun k =>
      match fget a.fields k with
      | some (.vstr s) => if pyStripS s ≠ "" then some (pyStripS s) else none
      | _ => none) with
  | some owner => owner
  | none =>
    match pyOrO (fget a.fields "Org Full Name")
        (pyOrO (fget a.fields "Organization Name") none) with
    | some v => pyStr v
    | none => idStrN a

/-- The nesting script's `agencies_by_name` index (total: every agency
is appended to exactly one bucket). -/
def nesting_agencies_by_name (agencies : List AirRec) : List (String × List AirRec) :=
  agencies.foldl (fun m a => insertAppend m (nesting_agency_name_key a) a) []

/-- The nesting script's `agencies_by_org` (owner) index. -/
def nesting_agencies_by_org (agencies : List AirRec) : List (String × List AirRec) :=
  agencies.foldl (fun m a => insertAppend m (nesting_owner_key a) a) []

/-- Token-based agency attachment of `nesting.py` `main` (lines
252-265): donor field via the `or`-alias chain; a string value is split
with the local tokenizer, a list value is matched item by item
without further splitting. -/
def nesting_token_agencies (ofields : List (String × PyVal))
    (byName : List (String × List AirRec)) : List AirRec :=
  let raw := pyOrO (fget ofields "Org Donor Agencies")
    (pyOrO (fget ofields "Org Donor Agencies (Linked)")
      (fget ofields "Org Donor Agencies (from Agency)"))
  match raw with
  | some (.vstr s) =>
    if pyStripS s ≠ "" then
      (nesting_split_respecting_parentheses s).flatMap
        (fun t => bucketD byName (lowerS (pyStripS t)))
    else []
  | some (.vlist l) =>
    l.flatMap (fun it =>
      match it with
      | .astr s => bucketD byName (lowerS (pyStripS s))
      | .aother => [])
  | none => []

/-- The organization name value of `nesting.py` `main` (line 249). -/
def nesting_org_name_raw (o : AirRec) : Option PyVal :=
  pyOrO (fget o.fields "Org Full Name")
    (pyOrO (fget o.fields "Org Short Name")
      (pyOrO (fget o.fields "Organization") (o.id.map PyVal.vstr)))

/-- Whether the resolved organization name is usable as a dict key.
When the resolution yields a list value, the Python code raises
`TypeError` (unhashable key) at `agencies_by_org.get(org_name or '')`;
theorems about the fallback therefore assume this predicate. -/
def nesting_org_name_ok (o : AirRec) : Bool :=
  match nesting_org_name_raw o with
  | some (.vlist _) => false
  | _ => true

/-- The key `org_name or ''` used for the owner-fallback lookup.  In
the list case Python would raise; the model returns the repr string,
and `nesting_org_name_ok` marks the case as outside the claim. -/
def nesting_org_name_key (o : AirRec) : String :=
  match nesting_org_name_raw o with
  | some v => if truthy v then pyStr v else ""
  | none => ""

/-- `str(o.get('id', '')) if o.get('id') else ''` (line 269). -/
def nesting_org_id_str (o : AirRec) : String :=
  match o.id with
  | some s => if s ≠ "" then s else ""
  | none => ""

/-- The full agency attachment of `nesting.py` `main` (lines 252-270):
token matching first; if it collected nothing, the `by_owner` lookup by
name, then by id (`... or ... or []`). -/
def nesting_attach_agencies (o : AirRec)
    (byName byOrg : List (String × List AirRec)) : List AirRec :=
  let t := nesting_token_agencies o.fields byName
  if t ≠ [] then t
  else
    let b1 := bucketD byOrg (nesting_org_name_key o)
    if b1 ≠ [] then b1 else bucketD byOrg (nesting_org_id_str o)

/-! ## `detailed_filter_analysis.py` (filter-visibility engine)

The script analyses the nested output with the target country fixed to
`"Germany"`; the selected-agency set is a list of display-name
strings. -/

/-- `get_org_level_germany_agencies` over a list of agency records: the
name values (`fields.get('Agency/Department Name', '')`) of agencies
whose `Country Name` equals the string `"Germany"`, keeping truthy
names only.  The same code is `get_project_level_germany_agencies`
when applied to a project's own agencies. -/
def germanyAgencyNames (agencies : List AirRec) : List PyVal :=
  agencies.filterMap (fun a =>
    if fget a.fields "Country Name" = some (.vstr "Germany") then
      let n := (fget a.fields "Agency/Department Name").getD (.vstr "")
      if truthy n then some n else none
    else none)

/-- Python `name in selected_agencies` for a collected name value (a
non-string value never equals a string). -/
def nameInSelected (v : PyVal) (sel : List String) : Bool :=
  match v with
  | .vstr s => sel.contains s
  | .vlist _ => false

/-- `org_has_selected_agency`. -/
def org_has_selected_agency (o : NOrg) (sel : List String) : Bool :=
  (germanyAgencyNames o.agencies).any (fun n => nameInSelected n sel)

/-- `project_matches_agency_filter`: an org-level selected agency makes
every project match; otherwise the project's own Germany agencies are
checked against the selection. -/
def project_matches_agency_filter (p : NProj) (sel : List String)
    (orgHasAgency : Bool) : Bool :=
  if orgHasAgency then true
  else (germanyAgencyNames p.agencies).any (fun n => nameInSelected n sel)

/-- The `visible_projects` list computed in the script's main loop. -/
def visible_projects (o : NOrg) (sel : List String) : List NProj :=
  o.projects.filter (fun p =>
    project_matches_agency_filter p sel (org_has_selected_agency o sel))

/-- `should_show = len(visible_projects) > 0 or org_has_agency`. -/
def should_show_org (o : NOrg) (sel : List String) : Bool :=
  decide (0 < (visible_projects o sel).length) || org_has_selected_agency o sel

/-- Truthy `Country Name` values of the org-level agencies
(`get_org_level_donors`). -/
def orgLevelDonorVals (o : NOrg) : List PyVal :=
  o.agencies.filterMap (fun a =>
    match fget a.fields "Country Name" with
    | some v => if truthy v then some v else none
    | none => none)

/-- Truthy `Country Name` values of all project-level agencies
(`get_project_level_donors`). -/
def projLevelDonorVals (o : NOrg) : List PyVal :=
  o.projects.flatMap (fun p =>
    p.agencies.filterMap (fun a =>
      match fget a.fields "Country Name" with
      | some v => if truthy v then some v else none
      | none => none))

/-- The membership domain of `get_all_donors` (org-level union
project-level donor values). -/
def allDonorVals (o : NOrg) : List PyVal :=
  orgLevelDonorVals o ++ projLevelDonorVals o

/-- The display name of an agency record as the filter script reads it:
the `Agency/Department Name` field, when it is a non-empty string. -/
def displayNameF (a : AirRec) : Option String :=
  match fget a.fields "Agency/Department Name" with
  | some (.vstr s) => if s ≠ "" then some s else none
  | _ => none

/-! ## Filter-visibility theorems (C1, C2) -/

/-- An agency with target country `"Germany"` and a display name in the
selection contributes its name to `germanyAgencyNames`. -/
theorem mem_germanyAgencyNames {agencies : List AirRec} {a : AirRec} {n : String}
    (ha : a ∈ agencies)
    (hc : fget a.fields "Country Name" = some (.vstr "Germany"))
    (hdn : displayNameF a = some n) :
    PyVal.vstr n ∈ germanyAgencyNames agencies := by
  unfold germanyAgencyNames
  rw [List.mem_filterMap]
  refine ⟨a, ha, ?_⟩
  rw [if_pos hc]
  unfold displayNameF at hdn
  rcases hval : fget a.fields "Agency/Department Name" with _ | v
  · rw [hval] at hdn; simp at hdn
  · rw [hval] at hdn
    cases v with
    | vstr s =>
      simp only at hdn
      by_cases hs : s = ""
      · rw [if_neg (by simp [hs])] at hdn; exact absurd hdn (by simp)
      · rw [if_pos hs] at hdn
        cases hdn
        simp [Option.getD, truthy, hs]
    | vlist l => simp at hdn

/-- C1: if an organization has at least one org-level agency whose
country is the target country ("Germany", as fixed in
`detailed_filter_analysis.py`) and whose display name is in the
selected-agency set, then `project_matches_agency_filter` is true for
every one of its projects (projects with no agencies of their own
included), so `visible_projects` is the organization's full project
list. -/
theorem c1_org_agency_blanket_visibility (o : NOrg) (sel : List String)
    (h : ∃ a ∈ o.agencies, fget a.fields "Country Name" = some (.vstr "Germany") ∧
         ∃ n, displayNameF a = some n ∧ n ∈ sel) :
    (∀ p ∈ o.projects,
      project_matches_agency_filter p sel (org_has_selected_agency o sel) = true) ∧
    visible_projects o sel = o.projects := by
  obtain ⟨a, ha, hc, n, hdn, hns⟩ := h
  have horg : org_has_selected_agency o sel = true := by
    unfold org_has_selected_agency
    rw [List.any_eq_true]
    exact ⟨PyVal.vstr n, mem_germanyAgencyNames ha hc hdn,
      by simp [nameInSelected, hns]⟩
  refine ⟨fun p _ => by simp [project_matches_agency_filter, horg], ?_⟩
  unfold visible_projects
  exact List.filter_eq_self.mpr
    (fun p _ => by simp [project_matches_agency_filter, horg])

/-- Witness for C1: the spec's scenario — organization `X` with one
org-level agency (FFO, Germany) and projects `P1` (no agencies) and
`P2` (Unlisted Agency, Germany), filtered by Germany + {FFO}. -/
def c1AgF : AirRec :=
  ⟨some "agF", [("Country Name", .vstr "Germany"),
                ("Agency/Department Name", .vstr "Federal Foreign Office (FFO)")]⟩

def c1AgU : AirRec :=
  ⟨some "agU", [("Country Name", .vstr "Germany"),
                ("Agency/Department Name", .vstr "Unlisted Agency")]⟩

def c1P1 : NProj := ⟨some "P1", [], []⟩

def c1P2 : NProj := ⟨some "P2", [], [c1AgU]⟩

def c1OrgX : NOrg :=
  ⟨some "X", some (.vstr "Org X"), [], [c1AgF], [c1P1, c1P2], ["Germany"]⟩

def c1Sel : List String := ["Federal Foreign Office (FFO)"]

theorem c1_witness :
    visible_projects c1OrgX c1Sel = [c1P1, c1P2] :=
  ((c1_org_agency_blanket_visibility c1OrgX c1Sel
    ⟨c1AgF, by decide, by decide, "Federal Foreign Office (FFO)", by decide,
      by decide⟩).2).trans (by decide)

/-- C2: an organization with no org-level agency whose (Germany)
display name is selected, and all of whose projects' own Germany
agencies have unselected display names, is not shown by the combined
country + agency filter, even when "Germany" is in the project-level
donor countries (hence in `all_donor_countries`). -/
theorem c2_project_only_country_excluded (o : NOrg) (sel : List String)
    (hdonor : PyVal.vstr "Germany" ∈ projLevelDonorVals o)
    (h1 : ∀ a ∈ o.agencies,
      fget a.fields "Country Name" = some (.vstr "Germany") →
      ∀ n, displayNameF a = some n → n ∉ sel)
    (h2 : ∀ p ∈ o.projects, ∀ a ∈ p.agencies,
      fget a.fields "Country Name" = some (.vstr "Germany") →
      ∀ n, displayNameF a = some n → n ∉ sel) :
    should_show_org o sel = false := by
  have hnames : ∀ (ags : List AirRec),
      (∀ a ∈ ags, fget a.fields "Country Name" = some (.vstr "Germany") →
        ∀ n, displayNameF a = some n → n ∉ sel) →
      (germanyAgencyNames ags).any (fun n => nameInSelected n sel) = false := by
    intro ags hno
    rw [List.any_eq_false]
    intro v hv
    unfold germanyAgencyNames at hv
    rw [List.mem_filterMap] at hv
    obtain ⟨a, ha, hfa⟩ := hv
    by_cases hc : fget a.fields "Country Name" = some (.vstr "Germany")
    · rw [if_pos hc] at hfa
      rcases hval : fget a.fields "Agency/Department Name" with _ | w
      · rw [hval] at hfa; simp [Option.getD, truthy] at hfa
      · rw [hval] at hfa
        cases w with
        | vstr s =>
          simp only [Option.getD] at hfa
          by_cases hs : s = ""
          · rw [hs] at hfa; simp [truthy] at hfa
          · rw [if_pos (by simp [truthy, hs])] at hfa
            cases hfa
            have : s ∉ sel := hno a ha hc s (by simp [displayNameF, hval, hs])
            simp [nameInSelected, this]
        | vlist l =>
          simp only [Option.getD] at hfa
          by_cases hl : truthy (PyVal.vlist l) = true
          · rw [if_pos hl] at hfa; cases hfa; simp [nameInSelected]
          · rw [if_neg hl] at hfa; exact absurd hfa (by simp)
    · rw [if_neg hc] at hfa; exact absurd hfa (by simp)
  have horg : org_has_selected_agency o sel = false := hnames o.agencies h1
  have hvis : visible_projects o sel = [] := by
    unfold visible_projects
    rw [List.filter_eq_nil_iff]
    intro p hp
    simp only [project_matches_agency_filter, horg, if_false, Bool.not_eq_true]
    exact hnames p.agencies (h2 p hp)
  unfold should_show_org
  rw [hvis, horg]
  simp

/-- Witness for C2: the spec's scenario — organization `Y` with zero
org-level agencies and one project `P3` carrying agency (Unlisted
Agency, Germany), filtered by Germany + {FFO}. -/
def c2AgU : AirRec :=
  ⟨some "agU2", [("Country Name", .vstr "Germany"),
                 ("Agency/Department Name", .vstr "Unlisted Agency")]⟩

def c2P3 : NProj := ⟨some "P3", [], [c2AgU]⟩

def c2OrgY : NOrg := ⟨some "Y", some (.vstr "Org Y"), [], [], [c2P3], []⟩

def c2Sel : List String := ["Federal Foreign Office (FFO)"]

theorem c2_witness : should_show_org c2OrgY c2Sel = false :=
  c2_project_only_country_excluded c2OrgY c2Sel (by decide)
    (by decide) (by decide)

/-! ## Deduplication lemmas for `match_projects` (C3, C4) -/

/-- The ids of the deduplicated list are distinct and avoid the seen
set. -/
theorem dedupGo_ids (l : List AirRec) : ∀ (seen : List (Option String)),
    ((dedupGo seen l).map AirRec.id).Nodup ∧
    ∀ i ∈ (dedupGo seen l).map AirRec.id, i ∉ seen := by
  induction l with
  | nil => intro seen; simp [dedupGo]
  | cons p rest ih =>
    intro seen
    unfold dedupGo
    by_cases hp : p.id ∈ seen
    · rw [if_pos hp]; exact ih seen
    · rw [if_neg hp]
      obtain ⟨hnd, hdisj⟩ := ih (p.id :: seen)
      refine ⟨?_, ?_⟩
      · rw [List.map_cons, List.nodup_cons]
        exact ⟨fun hmem => (hdisj p.id hmem) (by simp), hnd⟩
      · intro i hi
        rw [List.map_cons, List.mem_cons] at hi
        rcases hi with hi | hi
        · rw [hi]; exact hp
        · intro hiseen; exact (hdisj i hi) (List.mem_cons_of_mem _ hiseen)

/-- Deduplication only removes elements. -/
theorem dedupGo_sublist (l : List AirRec) :
    ∀ (seen : List (Option String)), (dedupGo seen l).Sublist l := by
  induction l with
  | nil => intro seen; simp [dedupGo]
  | cons p rest ih =>
    intro seen
    unfold dedupGo
    by_cases hp : p.id ∈ seen
    · rw [if_pos hp]; exact (ih seen).cons p
    · rw [if_neg hp]; exact (ih (p.id :: seen)).cons₂ p

/-- Every input element whose id is not already seen keeps a
representative with the same id. -/
theorem dedupGo_represents (l : List AirRec) :
    ∀ (seen : List (Option String)) (p : AirRec), p ∈ l → p.id ∉ seen →
    ∃ q ∈ dedupGo seen l, q.id = p.id := by
  induction l with
  | nil => intro _ p hp; exact absurd hp (by simp)
  | cons a rest ih =>
    intro seen p hp hps
    unfold dedupGo
    rcases List.mem_cons.mp hp with rfl | hrest
    · rw [if_neg hps]
      exact ⟨p, by simp, rfl⟩
    · by_cases ha : a.id ∈ seen
      · rw [if_pos ha]; exact ih seen p hrest hps
      · rw [if_neg ha]
        by_cases hid : p.id = a.id
        · exact ⟨a, by simp, hid.symm⟩
        · obtain ⟨q, hq, hqid⟩ := ih (a.id :: seen) p hrest
            (by simp [hid, hps])
          exact ⟨q, List.mem_cons_of_mem _ hq, hqid⟩

/-- Every element of the deduplicated list is the first input element
carrying its id. -/
theorem dedupGo_first (l : List AirRec) :
    ∀ (seen : List (Option String)) (q : AirRec), q ∈ dedupGo seen l →
    q.id ∉ seen ∧ l.find? (fun r => decide (r.id = q.id)) = some q := by
  induction l with
  | nil => intro seen q hq; exact absurd hq (by simp [dedupGo])
  | cons a rest ih =>
    intro seen q hq
    unfold dedupGo at hq
    by_cases ha : a.id ∈ seen
    · rw [if_pos ha] at hq
      obtain ⟨hqs, hfind⟩ := ih seen q hq
      have hne : a.id ≠ q.id := fun h => hqs (h ▸ ha)
      refine ⟨hqs, ?_⟩
      rw [List.find?_cons_of_neg _ (by simp [hne]), hfind]
    · rw [if_neg ha] at hq
      rcases List.mem_cons.mp hq with rfl | hq2
      · exact ⟨ha, by rw [List.find?_cons_of_pos _ (by simp)]⟩
      · obtain ⟨hqs, hfind⟩ := ih (a.id :: seen) q hq2
        have hne : a.id ≠ q.id := fun h => hqs (by simp [h])
        refine ⟨fun h => hqs (List.mem_cons_of_mem _ h), ?_⟩
        rw [List.find?_cons_of_neg _ (by simp [hne]), hfind]

/-- Nesting agencies into projects keeps the project ids, in order. -/
theorem nest_project_agencies_ids (projects : List AirRec)
    (byId : List (String × AirRec)) :
    (nest_project_agencies projects byId).map NProj.id = projects.map AirRec.id := by
  unfold nest_project_agencies
  rw [List.map_map]
  rfl

/-! ## C3: dedup invariant of the nested output -/

def c3Org : AirRec :=
  ⟨some "org1", [("Org Full Name", .vstr "X"),
                 ("Org Donor Agencies", .vstr "FFO, FFO")]⟩

def c3Agency : AirRec :=
  ⟨some "ag1", [("Name", .vstr "FFO"), ("Country Name", .vstr "Germany")]⟩

/-- Counterexample to C3: when the same agency name token appears twice
in an organization's donor-agency field, the built nested organization
carries the same agency (same identifier) twice in its `agencies` list —
`match_agencies` never deduplicates and `main` attaches its result
as-is. -/
theorem c3_counterexample :
    (build_nested [c3Org] [c3Agency] []).map
        (fun o => o.agencies.map (fun a => a.id)) =
      [[some "ag1", some "ag1"]] ∧
    ¬ ([some "ag1", some "ag1"] : List (Option String)).Nodup := by
  constructor
  · decide
  · decide

/-- C3 as amended: the projects half of the invariant does hold — for
every input and every output organization, no two entries of
`O.projects` share a project identifier (dedup by id inside
`match_projects`, ids preserved by `nest_project_agencies`).  The
agencies half fails on repeated donor tokens, see
`c3_counterexample`. -/
theorem c3_amended_project_dedup (orgs agencies projects : List AirRec)
    (O : NOrg) (hO : O ∈ build_nested orgs agencies projects) :
    (O.projects.map NProj.id).Nodup := by
  unfold build_nested at hO
  rw [List.mem_map] at hO
  obtain ⟨o, _, rfl⟩ := hO
  simp only
  rw [nest_project_agencies_ids]
  unfold match_projects
  exact (dedupGo_ids _ []).1

def c3WOrg : AirRec := ⟨some "orgW", [("Org Full Name", .vstr "W")]⟩

def c3WProj : AirRec := ⟨some "pW", [("Provider Org", .vstr "W, W")]⟩

def c3WEntry : NOrg :=
  ⟨some "orgW", some (.vstr "W"), [("Org Full Name", .vstr "W")], [],
   [⟨some "pW", [("Provider Org", .vstr "W, W")], []⟩], []⟩

/-- Witness for the amended C3: a project listing the same provider
twice is attached exactly once. -/
theorem c3_amended_witness :
    c3WEntry ∈ build_nested [c3WOrg] [] [c3WProj] ∧
    (c3WEntry.projects.map NProj.id).Nodup :=
  ⟨by decide,
   c3_amended_project_dedup [c3WOrg] [] [c3WProj] c3WEntry (by decide)⟩

/-! ## C4: project matching tries all strategies, then dedups -/

/-- C4: `match_projects` equals the first-seen-by-id deduplication of
the concatenation of all three strategy results (exact name bucket,
exact id bucket, first case-insensitive name bucket): the output is an
order-preserving sublist of the concatenation, its ids are pairwise
distinct, every candidate produced by any strategy is represented by
id, and each output record is the first candidate carrying its id. -/
theorem c4_match_projects_concat_dedup (orgName orgId : String)
    (idx : List (String × List AirRec)) :
    (match_projects orgName orgId idx).Sublist
        (match_projects_candidates orgName orgId idx) ∧
    ((match_projects orgName orgId idx).map AirRec.id).Nodup ∧
    (∀ p ∈ match_projects_candidates orgName orgId idx,
      ∃ q ∈ match_projects orgName orgId idx, q.id = p.id) ∧
    (∀ q ∈ match_projects orgName orgId idx,
      (match_projects_candidates orgName orgId idx).find?
          (fun r => decide (r.id = q.id)) = some q) := by
  refine ⟨dedupGo_sublist _ [], (dedupGo_ids _ []).1, ?_, ?_⟩
  · intro p hp
    exact dedupGo_represents _ [] p hp (by simp)
  · intro q hq
    exact (dedupGo_first _ [] q hq).2

def c4P1 : AirRec := ⟨some "p1", []⟩

def c4P2 : AirRec := ⟨some "p2", []⟩

def c4P3 : AirRec := ⟨some "p3", []⟩

def c4Idx : List (String × List AirRec) :=
  [("X", [c4P1]), ("x", [c4P2, c4P1]), ("id", [c4P3])]

/-- Witness for C4: with name "x" and id "id", the id-bucket strategy
still contributes `p3` although the name lookup already succeeded, and
the duplicate `p1` found again by the case-insensitive scan resolves to
its first occurrence. -/
theorem c4_witness :
    c4P1 ∈ match_projects_candidates "x" "id" c4Idx ∧
    (match_projects_candidates "x" "id" c4Idx).find?
        (fun r => decide (r.id = c4P1.id)) = some c4P1 ∧
    (∃ q ∈ match_projects "x" "id" c4Idx, q.id = c4P3.id) :=
  ⟨by decide,
   (c4_match_projects_concat_dedup "x" "id" c4Idx).2.2.2 c4P1 (by decide),
   (c4_match_projects_concat_dedup "x" "id" c4Idx).2.2.1 c4P3 (by decide)⟩

/-! ## C5: owner-index fallback in `nesting.py` -/

/-- C5: when token matching collects zero agencies, the nesting
script's attachment falls back to the `by_owner` index: the bucket
keyed by the organization's resolved name, and, when that lookup comes
back empty, the bucket keyed by the organization's identifier.  The
`nesting_org_name_ok` hypothesis records that the resolved name is not
a list value (on which the Python dict lookup would raise
`TypeError`). -/
theorem c5_owner_fallback (o : AirRec)
    (byName byOrg : List (String × List AirRec))
    (hok : nesting_org_name_ok o = true)
    (htok : nesting_token_agencies o.fields byName = []) :
    nesting_attach_agencies o byName byOrg =
      (if bucketD byOrg (nesting_org_name_key o) ≠ [] then
        bucketD byOrg (nesting_org_name_key o)
      else bucketD byOrg (nesting_org_id_str o)) := by
  unfold nesting_attach_agencies
  rw [htok]
  simp

def c5Agency : AirRec :=
  ⟨some "agA", [("Organization", .vstr "Acme")]⟩

def c5Org : AirRec :=
  ⟨some "ID1", [("Org Full Name", .vstr "Acme")]⟩

/-- Witness for C5: an organization with no donor-agency field and an
agency owned by its name is attached through the `by_owner` name
bucket. -/
theorem c5_witness :
    nesting_attach_agencies c5Org [] (nesting_agencies_by_org [c5Agency]) =
      [c5Agency] :=
  (c5_owner_fallback c5Org [] (nesting_agencies_by_org [c5Agency])
    (by decide) (by decide)).trans (by decide)

/-! ## C6: donor-field alias resolution -/

def c6Fields : List (String × PyVal) :=
  [("Org Donor Agencies", .vstr ""),
   ("Org Donor Agencies (Linked)", .vstr "FFO")]

def c6Agency : AirRec := ⟨some "ag1", [("Name", .vstr "FFO")]⟩

def c6ByName : List (String × List AirRec) := [("ffo", [c6Agency])]

/-- Counterexample to C6: with the first alias present but empty and
the second alias holding "FFO", the claim predicts that the empty first
alias wins and token matching yields zero agencies; the code's
`or`-chain skips the empty value, consults the later alias and matches
the agency. -/
theorem c6_counterexample :
    match_agencies c6Fields c6ByName = [c6Agency] ∧
    match_agencies c6Fields c6ByName ≠ [] := by
  constructor
  · decide
  · decide

/-- C6 as amended: the first alias whose value is truthy (non-empty)
wins; an alias that is present with an empty value is skipped and the
next alias is consulted, so token matching proceeds on the later
alias's value. -/
theorem c6_amended_truthy_alias_wins (fields : List (String × PyVal))
    (byName : List (String × List AirRec)) (s : String)
    (h1 : fget fields "Org Donor Agencies" = some (.vstr ""))
    (h2 : fget fields "Org Donor Agencies (Linked)" = some (.vstr s))
    (h3 : pyStripS s ≠ "") :
    match_agencies fields byName =
      (split_respecting_parentheses s).flatMap
        (fun t => bucketD byName (lowerS (pyStripS t))) := by
  have hs : s ≠ "" := by
    intro h
    rw [h] at h3
    exact h3 (by decide)
  unfold match_agencies
  rw [h1, h2]
  simp only [pyOrO, truthy]
  rw [if_neg (by simp)]
  rw [if_pos (by simp [hs])]
  simp [truthy, hs, h3]

def c6WFields : List (String × PyVal) :=
  [("Org Donor Agencies", .vstr ""),
   ("Org Donor Agencies (Linked)", .vstr "KfW")]

def c6WAgency : AirRec := ⟨some "agK", [("Name", .vstr "KfW")]⟩

def c6WByName : List (String × List AirRec) := [("kfw", [c6WAgency])]

/-- Witness for the amended C6. -/
theorem c6_amended_witness :
    match_agencies c6WFields c6WByName = [c6WAgency] :=
  (c6_amended_truthy_alias_wins c6WFields c6WByName "KfW"
    (by decide) (by decide) (by decide)).trans (by decide)

/-! ## C7: totality of the nesting script's by-name agency index -/

/-- Unfolding lemma for `bucketD` on a cons cell. -/
theorem bucketD_cons {α : Type} (k3 : String) (vs : List α)
    (rest : List (String × List α)) (k : String) :
    bucketD ((k3, vs) :: rest) k = if k3 = k then vs else bucketD rest k := rfl

/-- Inserting under key `k` appends to that bucket and leaves every
other bucket unchanged. -/
theorem bucketD_insertAppend {α : Type} (m : List (String × List α))
    (k k2 : String) (v : α) :
    bucketD (insertAppend m k v) k2 =
      if k2 = k then bucketD m k2 ++ [v] else bucketD m k2 := by
  induction m with
  | nil =>
    show bucketD [(k, [v])] k2 = _
    rw [bucketD_cons]
    by_cases h : k2 = k
    · subst h; simp [bucketD]
    · rw [if_neg (fun hh : k = k2 => h hh.symm), if_neg h]
  | cons kv rest ih =>
    obtain ⟨k3, vs⟩ := kv
    show bucketD (if k3 = k then (k3, vs ++ [v]) :: rest
      else (k3, vs) :: insertAppend rest k v) k2 = _
    by_cases h3 : k3 = k
    · rw [if_pos h3, bucketD_cons, bucketD_cons]
      by_cases h32 : k3 = k2
      · rw [if_pos h32, if_pos h32, if_pos (h32.symm.trans h3)]
      · have hk2 : k2 ≠ k := fun hh => h32 (h3.trans hh.symm)
        rw [if_neg h32, if_neg h32, if_neg hk2]
    · rw [if_neg h3, bucketD_cons, bucketD_cons]
      by_cases h32 : k3 = k2
      · have hk2 : k2 ≠ k := fun hh => h3 (h32.trans hh)
        rw [if_pos h32, if_pos h32, if_neg hk2]
      · rw [if_neg h32, if_neg h32, ih]

/-- Folding `setdefault(key(a), []).append(a)` over a record list fills
each bucket with exactly the records whose key matches, in input
order. -/
theorem bucketD_foldl_insertAppend (key : AirRec → String)
    (l : List AirRec) :
    ∀ (m : List (String × List AirRec)) (k : String),
    bucketD (l.foldl (fun acc a => insertAppend acc (key a) a) m) k =
      bucketD m k ++ l.filter (fun a => decide (key a = k)) := by
  induction l with
  | nil => intro m k; simp
  | cons a rest ih =>
    intro m k
    rw [List.foldl_cons, ih]
    rw [bucketD_insertAppend]
    by_cases h : k = key a
    · rw [if_pos h]
      rw [List.filter_cons_of_pos (by simp [h.symm])]
      simp
    · rw [if_neg h]
      rw [List.filter_cons_of_neg (by simp; exact fun hh => h hh.symm)]

/-- C7: the nesting script's `by_name` index is total — every agency
record lands in the bucket keyed by `nesting_agency_name_key` (the
normalized first non-empty name-field candidate, or the stringified
record id when no candidate is non-empty), and in no other bucket. -/
theorem c7_by_name_total (agencies : List AirRec) (a : AirRec)
    (ha : a ∈ agencies) :
    a ∈ bucketD (nesting_agencies_by_name agencies) (nesting_agency_name_key a) ∧
    ∀ k, a ∈ bucketD (nesting_agencies_by_name agencies) k →
      k = nesting_agency_name_key a := by
  have hbuckets : ∀ k, bucketD (nesting_agencies_by_name agencies) k =
      agencies.filter (fun x => decide (nesting_agency_name_key x = k)) := by
    intro k
    unfold nesting_agencies_by_name
    rw [bucketD_foldl_insertAppend]
    simp [bucketD]
  constructor
  · rw [hbuckets]
    rw [List.mem_filter]
    exact ⟨ha, by simp⟩
  · intro k hk
    rw [hbuckets, List.mem_filter] at hk
    have := hk.2
    simp at this
    exact this.symm

def c7NamedAgency : AirRec := ⟨some "idA", [("Name", .vstr " FFO ")]⟩

def c7BareAgency : AirRec := ⟨some "IdB", []⟩

/-- Witness for C7: an agency with a (padded) name field is indexed
under the normalized name, and an agency with no name fields at all is
still indexed — under its lowercased identifier — and under no other
key. -/
theorem c7_witness :
    c7BareAgency ∈ bucketD
        (nesting_agencies_by_name [c7NamedAgency, c7BareAgency]) "idb" :=
  (by decide : nesting_agency_name_key c7BareAgency = "idb") ▸
    (c7_by_name_total [c7NamedAgency, c7BareAgency] c7BareAgency
      (by decide)).1

/-! ## Scan-state lemmas for the `_utils.py` tokenizer (C8, C9, C10) -/

/-- Flushing commutes with a prefix of already-finished tokens. -/
theorem flushTok_append (T toks : List (List Char)) (cur : List Char) :
    flushTok (T ++ toks) cur = T ++ flushTok toks cur := by
  unfold flushTok
  split_ifs <;> simp

/-- One scan step ignores the already-finished tokens except for
appending to them. -/
theorem stepU_toks_shift (st : ScanSt) (c : Char) (T : List (List Char)) :
    stepU { st with toks := T ++ st.toks } c =
      { stepU st c with toks := T ++ (stepU st c).toks } := by
  obtain ⟨tk, cu, d, iq, qq⟩ := st
  simp only [stepU]
  split_ifs <;> simp [flushTok_append]

/-- The whole scan ignores the already-finished tokens except for
appending to them. -/
theorem foldl_toks_shift (l : List Char) :
    ∀ (st : ScanSt) (T : List (List Char)),
    l.foldl stepU { st with toks := T ++ st.toks } =
      { l.foldl stepU st with toks := T ++ (l.foldl stepU st).toks } := by
  induction l with
  | nil => intro st T; simp
  | cons c rest ih =>
    intro st T
    rw [List.foldl_cons, List.foldl_cons, stepU_toks_shift, ih]

/-- Invariant: outside a quoted span the stored quote character is the
cleared sentinel. -/
def qcInv (st : ScanSt) : Prop := st.inQ = false → st.qc = none

theorem stepU_qcInv (st : ScanSt) (c : Char) (h : qcInv st) :
    qcInv (stepU st c) := by
  obtain ⟨tk, cu, d, iq, qq⟩ := st
  simp only [stepU]
  split_ifs <;> intro hq <;> simp_all [qcInv]

theorem foldl_qcInv (l : List Char) :
    ∀ (st : ScanSt), qcInv st → qcInv (l.foldl stepU st) := by
  induction l with
  | nil => intro st h; exact h
  | cons c rest ih => intro st h; exact ih _ (stepU_qcInv st c h)

theorem scanU_qcInv (s : String) : qcInv (scanU s) :=
  foldl_qcInv s.data initU (fun _ => rfl)

/-- Inside a quoted span, every character other than the closing quote
is appended verbatim: the scan of a quote-free suffix only grows the
current token. -/
theorem foldl_inQ (cs : List Char) :
    ∀ (st : ScanSt) (q : Char), st.inQ = true → st.qc = some q → q ∉ cs →
    cs.foldl stepU st = { st with cur := st.cur ++ cs } := by
  induction cs with
  | nil => intro st q _ _ _; simp
  | cons c rest ih =>
    intro st q hiq hqc hnotin
    have hcq2 : ¬ q = c := fun h =>
      hnotin (by rw [h]; exact List.mem_cons_self c rest)
    have hstep : stepU st c = { st with cur := st.cur ++ [c] } := by
      obtain ⟨tk, cu, d, iq, qq⟩ := st
      simp only at hiq hqc
      subst hiq hqc
      simp only [stepU]
      rw [if_neg (by simp), if_neg (by simp [hcq2]),
        if_neg (by simp), if_neg (by simp), if_neg (by simp)]
    rw [List.foldl_cons, hstep]
    rw [ih { st with cur := st.cur ++ [c] } q hiq hqc
      (fun h => hnotin (List.mem_cons_of_mem c h))]
    simp

/-- A scan step on `')'` outside quotes clamps the depth and appends
the character. -/
theorem stepU_rparen (st : ScanSt) (h : st.inQ = false) :
    stepU st ')' =
      { st with depth := max 0 (st.depth - 1), cur := st.cur ++ [')'] } := by
  obtain ⟨tk, cu, d, iq, qq⟩ := st
  simp only at h
  subst h
  simp only [stepU]
  rw [if_neg (by decide), if_neg (by simp), if_neg (by decide),
    if_pos (by decide)]

/-- A scan step on `','` outside quotes at depth 0 flushes the current
token. -/
theorem stepU_comma (st : ScanSt) (h : st.inQ = false) (hd : st.depth = 0) :
    stepU st ',' =
      { st with toks := flushTok st.toks st.cur, cur := [] } := by
  obtain ⟨tk, cu, d, iq, qq⟩ := st
  simp only at h hd
  subst h hd
  simp only [stepU]
  rw [if_neg (by decide), if_neg (by simp), if_neg (by decide),
    if_neg (by decide), if_pos (by decide)]

/-- A scan step on an opening quote outside quotes enters the quoted
span. -/
theorem stepU_open_quote (st : ScanSt) (q : Char)
    (hq : q = squote ∨ q = dquote) (h : st.inQ = false) :
    stepU st q =
      { st with inQ := true, qc := some q, cur := st.cur ++ [q] } := by
  obtain ⟨tk, cu, d, iq, qq⟩ := st
  simp only at h
  subst h
  simp only [stepU]
  rw [if_pos ⟨hq.elim (fun h2 => Or.inr h2) (fun h2 => Or.inl h2), trivial⟩]

/-- Membership of a non-whitespace character survives stripping. -/
theorem mem_stripC {c : Char} {l : List Char} (hc : c ∈ l)
    (hw : pyWS c = false) : c ∈ stripC l := by
  have step : ∀ (l2 : List Char), c ∈ l2 → c ∈ l2.dropWhile pyWS := by
    intro l2 h2
    have hsplit := List.takeWhile_append_dropWhile (p := pyWS) (l := l2)
    rw [← hsplit] at h2
    rcases List.mem_append.mp h2 with h3 | h3
    · exact absurd (List.mem_takeWhile_imp h3) (by simp [hw])
    · exact h3
  unfold stripC
  rw [List.mem_reverse]
  exact step _ (by rw [List.mem_reverse]; exact step _ hc)

/-- Stripping a token whose first and last characters are not
whitespace is the identity. -/
theorem stripC_sandwich (a b : Char) (l : List Char)
    (ha : pyWS a = false) (hb : pyWS b = false) :
    stripC (a :: l ++ [b]) = a :: l ++ [b] := by
  unfold stripC
  rw [List.cons_append, List.dropWhile_cons, if_neg (by simp [ha])]
  have hrev : (a :: (l ++ [b])).reverse = b :: (l.reverse ++ [a]) := by
    simp
  rw [hrev, List.dropWhile_cons, if_neg (by simp [hb]), ← hrev,
    List.reverse_reverse]

/-- A list containing a non-whitespace character does not strip to
nothing. -/
theorem stripC_ne_nil {c : Char} {l : List Char} (hc : c ∈ l)
    (hw : pyWS c = false) : stripC l ≠ [] := by
  intro hnil
  have hmem := mem_stripC hc hw
  rw [hnil] at hmem
  exact absurd hmem (List.not_mem_nil c)

/-- One scan step never decreases the depth below zero. -/
theorem stepU_depth_nonneg (st : ScanSt) (c : Char) (h : 0 ≤ st.depth) :
    0 ≤ (stepU st c).depth := by
  obtain ⟨tk, cu, d, iq, qq⟩ := st
  simp only at h
  simp only [stepU]
  split_ifs
  · exact h
  · exact h
  · show (0 : Int) ≤ d + 1
    omega
  · show (0 : Int) ≤ max 0 (d - 1)
    exact le_max_left 0 (d - 1)
  · exact h
  · exact h

/-- All intermediate scan states of a scan, in order. -/
def statesAux : ScanSt → List Char → List ScanSt
  | st, [] => [st]
  | st, c :: cs => st :: statesAux (stepU st c) cs

/-- The scan states visited while tokenizing a string. -/
def scan_states (s : String) : List ScanSt :=
  statesAux initU s.data

theorem statesAux_depth_nonneg (l : List Char) :
    ∀ (st : ScanSt), 0 ≤ st.depth → ∀ s2 ∈ statesAux st l, 0 ≤ s2.depth := by
  induction l with
  | nil =>
    intro st h s2 hs2
    simp [statesAux] at hs2
    rw [hs2]
    exact h
  | cons c cs ih =>
    intro st h s2 hs2
    rw [statesAux] at hs2
    rcases List.mem_cons.mp hs2 with rfl | hs2
    · exact h
    · exact ih (stepU st c) (stepU_depth_nonneg st c h) s2 hs2

/-- Scanning `')'` then `','` from a balanced, unquoted state flushes
the current token (with the stray `')'` appended) and restarts the scan
of the remainder from the initial state, carrying the finished tokens
along. -/
theorem scan_after_paren_comma (T : List (List Char)) (cu : List Char)
    (l : List Char) :
    l.foldl stepU (stepU (stepU ⟨T, cu, 0, false, none⟩ ')') ',') =
      { l.foldl stepU initU with
        toks := flushTok T (cu ++ [')']) ++ (l.foldl stepU initU).toks } := by
  have hmax : max 0 ((0 : Int) - 1) = 0 := by decide
  have h1 : stepU (⟨T, cu, 0, false, none⟩ : ScanSt) ')' =
      ⟨T, cu ++ [')'], 0, false, none⟩ := by
    rw [stepU_rparen _ rfl]
    show (⟨T, cu ++ [')'], max 0 ((0 : Int) - 1), false, none⟩ : ScanSt) = _
    rw [hmax]
  have h2 : stepU (⟨T, cu ++ [')'], 0, false, none⟩ : ScanSt) ',' =
      ⟨flushTok T (cu ++ [')']), [], 0, false, none⟩ := by
    rw [stepU_comma _ rfl rfl]
  rw [h1, h2]
  have h3 : (⟨flushTok T (cu ++ [')']), [], 0, false, none⟩ : ScanSt) =
      { initU with toks := flushTok T (cu ++ [')']) ++ initU.toks } := by
    show _ = (⟨flushTok T (cu ++ [')']) ++ [], [], 0, false, none⟩ : ScanSt)
    rw [List.append_nil]
  rw [h3, foldl_toks_shift]

/-! ## C8: quoted spans protect separators; wrapping quotes stripped -/

/-- C8: the `_utils.py` tokenizer never splits inside a quoted span and
strips a wrapping pair of quotes: concretely
`tokenize("'A, B', C") = ["A, B", "C"]`, and in general a fully quoted
input (quote character absent from the body) yields the single stripped
body, whatever commas or semicolons it contains. -/
theorem c8_quoted_span_respected :
    split_respecting_parentheses "'A, B', C" = ["A, B", "C"] ∧
    ∀ s : String, squote ∉ s.data →
      split_respecting_parentheses ("'" ++ s ++ "'") =
        [String.mk (stripC s.data)] := by
  constructor
  · decide
  · intro s hs
    have hq : "'".data = [squote] := by decide
    have hdata : ("'" ++ s ++ "'").data = squote :: (s.data ++ [squote]) := by
      rw [String.data_append, String.data_append, hq]
      simp
    have hws : pyWS squote = false := by decide
    have hopen : stepU initU squote = ⟨[], [squote], 0, true, some squote⟩ := by
      decide
    have hscan : scanU ("'" ++ s ++ "'") =
        ⟨[], squote :: (s.data ++ [squote]), 0, false, none⟩ := by
      unfold scanU
      rw [hdata, List.foldl_cons, hopen, List.foldl_append,
        foldl_inQ s.data _ squote rfl rfl hs]
      dsimp only
      rw [List.foldl_cons, List.foldl_nil]
      simp only [stepU]
      rw [if_neg (by simp), if_pos (by simp)]
      show (⟨[], ([squote] ++ s.data) ++ [squote], 0, false, none⟩ : ScanSt) = _
      simp
    have hstrip : stripC (squote :: (s.data ++ [squote])) =
        squote :: (s.data ++ [squote]) := by
      have h := stripC_sandwich squote squote s.data hws hws
      rw [List.cons_append] at h
      exact h
    have hclean : cleanTok (squote :: (s.data ++ [squote])) = stripC s.data := by
      unfold cleanTok
      rw [hstrip]
      have hstarts : tokStarts (squote :: (s.data ++ [squote])) squote = true := by
        simp [tokStarts]
      have hends : tokEnds (squote :: (s.data ++ [squote])) squote = true := by
        unfold tokEnds
        rw [← List.cons_append, List.getLast?_concat]
        simp
      rw [if_pos (Or.inr ⟨hstarts, hends⟩)]
      show stripC (((s.data ++ [squote])).dropLast) = _
      rw [List.dropLast_concat]
    unfold split_respecting_parentheses finishToks
    rw [hscan]
    show ((flushTok [] (squote :: (s.data ++ [squote]))).map cleanTok).map
        String.mk = _
    unfold flushTok
    rw [hstrip, if_pos (by simp)]
    rw [List.nil_append, List.map_cons, List.map_nil, hclean,
      List.map_cons, List.map_nil]

def c8WBody : String := "x, y;z"

/-- Witness for C8: `tokenize("'x, y;z'") = ["x, y;z"]` — neither the
comma nor the semicolon splits inside the quoted span. -/
theorem c8_witness :
    split_respecting_parentheses ("'" ++ c8WBody ++ "'") = ["x, y;z"] :=
  ((c8_quoted_span_respected).2 c8WBody (by decide)).trans (by decide)

/-! ## C9: depth clamping and stray closing parentheses -/

/-- C9: during a scan of any input the parenthesis depth never goes
negative; a stray `')'` is clamped at depth 0, so a comma right after
it still splits at top level — the tokens of `s ++ ")," ++ t` are the
tokens of `s ++ ")"` followed by the tokens of `t`, whenever the scan
of `s` ends balanced (depth 0) and unquoted; and `tokenize("A))")`
returns the non-crashing `["A))"]`. -/
theorem c9_stray_paren_clamped :
    (∀ s : String, ∀ st ∈ scan_states s, 0 ≤ st.depth) ∧
    (∀ s t : String, (scanU s).depth = 0 → (scanU s).inQ = false →
      split_respecting_parentheses (s ++ ")," ++ t) =
        split_respecting_parentheses (s ++ ")") ++
          split_respecting_parentheses t) ∧
    split_respecting_parentheses "A))" = ["A))"] := by
  refine ⟨?_, ?_, by decide⟩
  · intro s st hst
    exact statesAux_depth_nonneg s.data initU (by decide) st hst
  · intro s t h0 h1
    have hqcN : (scanU s).qc = none := scanU_qcInv s h1
    rcases hscan : scanU s with ⟨T, cu, d, iq, qq⟩
    rw [hscan] at h0 h1 hqcN
    simp only at h0 h1 hqcN
    subst h0 h1 hqcN
    have hfold : List.foldl stepU initU s.data =
        (⟨T, cu, 0, false, none⟩ : ScanSt) := by
      have h := hscan
      unfold scanU at h
      exact h
    have hdata1 : (s ++ ")," ++ t).data = (s.data ++ [')', ',']) ++ t.data := by
      rw [String.data_append, String.data_append,
        (by decide : "),".data = [')', ','])]
    have hdata2 : (s ++ ")").data = s.data ++ [')'] := by
      rw [String.data_append, (by decide : ")".data = [')'])]
    have hL : scanU (s ++ ")," ++ t) =
        { scanU t with
          toks := flushTok T (cu ++ [')']) ++ (scanU t).toks } := by
      unfold scanU
      rw [hdata1, List.foldl_append, List.foldl_append, hfold,
        List.foldl_cons, List.foldl_cons, List.foldl_nil,
        scan_after_paren_comma]
    have hR : scanU (s ++ ")") = stepU (⟨T, cu, 0, false, none⟩ : ScanSt) ')' := by
      unfold scanU
      rw [hdata2, List.foldl_append, hfold, List.foldl_cons, List.foldl_nil]
    unfold split_respecting_parentheses
    rw [hL, hR, stepU_rparen _ rfl]
    have hfin : finishToks
        { scanU t with toks := flushTok T (cu ++ [')']) ++ (scanU t).toks } =
        flushTok T (cu ++ [')']) ++ finishToks (scanU t) := by
      unfold finishToks
      exact flushTok_append _ _ _
    rw [hfin, List.map_append, List.map_append]
    rfl

def c9WPrefix : String := "(x)"

/-- Witness for C9: `initU` is a visited state of the `"A))"` scan with
non-negative depth, and a comma following the stray `')'` in
`"(x)),y"` still splits at top level. -/
theorem c9_witness :
    (0 ≤ initU.depth) ∧
    split_respecting_parentheses (c9WPrefix ++ ")," ++ "y") =
      ["(x))", "y"] :=
  ⟨c9_stray_paren_clamped.1 "A))" initU (by decide),
   (c9_stray_paren_clamped.2.1 c9WPrefix "y" (by decide) (by decide)).trans
     (by decide)⟩

/-! ## C10: unmatched opening quotes -/

/-- Counterexample to C10: on the input consisting of a single
unmatched quote, the cleaning pass sees a token that both starts and
ends with the same quote character and strips it — the output token is
`""`, not `"'"`: the unmatched quote IS stripped here. -/
theorem c10_counterexample :
    split_respecting_parentheses "'" = [""] ∧
    split_respecting_parentheses "'" ≠ ["'"] := by
  constructor
  · decide
  · decide

/-- C10 as amended: after an unmatched opening quote the whole
remainder stays inside the quoted span — no later comma or semicolon
splits, and the scan produces exactly one further token, the stripped
remainder (with the quote) passed through the cleaning pass; the
cleaning pass leaves a token unchanged (quote retained) unless the
token begins and ends with the same quote character (the lone-quote
token of the counterexample being the degenerate case). -/
theorem c10_amended_unmatched_quote :
    (∀ (s t : String) (q : Char), q = squote ∨ q = dquote →
      (scanU s).inQ = false → q ∉ t.data →
      split_respecting_parentheses (s ++ String.mk [q] ++ t) =
        ((scanU s).toks ++ [stripC ((scanU s).cur ++ q :: t.data)]).map
          (fun tk => String.mk (cleanTok tk))) ∧
    (∀ tk : List Char, stripC tk = tk →
      ¬ ((tokStarts tk dquote ∧ tokEnds tk dquote) ∨
         (tokStarts tk squote ∧ tokEnds tk squote)) →
      cleanTok tk = tk) := by
  constructor
  · intro s t q hq hInQ hnot
    have hqcN : (scanU s).qc = none := scanU_qcInv s hInQ
    rcases hscan : scanU s with ⟨T, cu, d, iq, qq⟩
    rw [hscan] at hInQ hqcN
    simp only at hInQ hqcN
    subst hInQ hqcN
    have hfold : List.foldl stepU initU s.data =
        (⟨T, cu, d, false, none⟩ : ScanSt) := by
      have h := hscan
      unfold scanU at h
      exact h
    have hdata : (s ++ String.mk [q] ++ t).data = s.data ++ (q :: t.data) := by
      rw [String.data_append, String.data_append]
      show (s.data ++ [q]) ++ t.data = _
      simp
    unfold split_respecting_parentheses scanU
    rw [hdata, List.foldl_append, hfold, List.foldl_cons,
      stepU_open_quote _ q hq rfl]
    dsimp only
    rw [foldl_inQ t.data ⟨T, cu ++ [q], d, true, some q⟩ q rfl rfl hnot]
    dsimp only
    have happ : (cu ++ [q]) ++ t.data = cu ++ (q :: t.data) := by simp
    have hqws : pyWS q = false := by
      rcases hq with h | h <;> rw [h] <;> decide
    have hne : stripC (cu ++ (q :: t.data)) ≠ [] :=
      stripC_ne_nil
        (List.mem_append_right cu (List.mem_cons_self q t.data)) hqws
    unfold finishToks flushTok
    rw [happ, if_pos hne, List.map_append, List.map_append,
      List.map_map, List.map_map]
    simp [Function.comp]
  · intro tk h1 h2
    unfold cleanTok
    rw [h1, if_neg h2]

def c10WPre : String := "A,"

def c10WTail : String := "B, C"

/-- Witness for the amended C10: in `"A,'B, C"` the comma before the
quote splits, the comma after the unmatched quote does not, and the
quote is retained in the final token; an unquoted already-stripped
token passes the cleaning stage unchanged. -/
theorem c10_witness :
    split_respecting_parentheses (c10WPre ++ String.mk [squote] ++ c10WTail) =
      ["A", "'B, C"] ∧
    cleanTok ['x'] = ['x'] :=
  ⟨(c10_amended_unmatched_quote.1 c10WPre c10WTail squote (Or.inl rfl)
      (by decide) (by decide)).trans (by decide),
   c10_amended_unmatched_quote.2 ['x'] (by decide) (by decide)⟩

end FundingCompass
